import Mathlib

/- Verification of the recipe-app-api backend: a multi-tenant recipe
management service with user registration, token authentication and
per-user CRUD over recipes, tags and ingredients.  Python strings are
modelled as lists of characters, database tables as lists of records,
and the HTTP endpoints as pure functions from a store and a request to
a status code and an updated store. -/

namespace RecipeApp

abbrev PyStr := List Char

/-- Errors surfaced by the user manager and the serializers. -/
inductive PyError where
  | valueError
  | validationError
deriving DecidableEq

/-- Account record of the user store: email, hashed password, display
name and the active, staff and superuser flags. -/
structure User where
  id : Nat
  email : PyStr
  passwordHash : PyStr
  name : PyStr
  isActive : Bool
  isStaff : Bool
  isSuperuser : Bool
deriving DecidableEq

/-- Per-user named label, uniquely identified by (user, name). -/
structure Tag where
  id : Nat
  user : Nat
  name : PyStr
deriving DecidableEq

/-- Identical shape to Tag, in a distinct namespace. -/
structure Ingredient where
  id : Nat
  user : Nat
  name : PyStr
deriving DecidableEq

/-- Per-user recipe record; the tag and ingredient associations are the
sets of primary keys of the associated records. -/
structure Recipe where
  id : Nat
  user : Nat
  title : PyStr
  timeMinutes : Nat
  price : Int
  description : PyStr
  link : PyStr
  tags : List Nat
  ingredients : List Nat
deriving DecidableEq

/-- The relational store: one table per model plus the auto-increment
counters supplying fresh primary keys. -/
structure DB where
  users : List User
  tags : List Tag
  ingredients : List Ingredient
  recipes : List Recipe
  nextUserId : Nat
  nextTagId : Nat
  nextIngredientId : Nat
  nextRecipeId : Nat
deriving DecidableEq

def lowerStr (s : PyStr) : PyStr := s.map Char.toLower

/-- Split a string at the last occurrence of the at-sign, as Python's
rsplit with one split does. -/
def splitLastAtSign : PyStr → Option (PyStr × PyStr)
  | [] => none
  | c :: cs =>
    match splitLastAtSign cs with
    | some (l, d) => some (c :: l, d)
    | none => if c = '@' then some ([], cs) else none

/-- Modelled from the spec: email normalization of the user manager
(app/core/models.py is not under src/) lowercases only the domain
segment and preserves the local part verbatim. -/
def normalizeEmail (email : PyStr) : PyStr :=
  match splitLastAtSign email with
  | some (l, d) => l ++ '@' :: lowerStr d
  | none => email

/-- Modelled from the spec: password hashing is delegated to the auth
framework; it is abstracted here as an injective tagging so that the
stored credential determines which plaintext verifies. -/
def hashPassword (p : PyStr) : PyStr := '#' :: p

def checkPassword (p h : PyStr) : Bool := h == hashPassword p

/-- Modelled from the spec: UserManager.create_user (app/core/models.py
is not under src/) fails on an empty email, normalizes the email,
hashes the password and persists the record.  The spec names the
failure ValidationError, but the repository's own test
test_new_user_without_email_raises_error asserts ValueError; the model
follows the test. -/
def create_user (db : DB) (email password nm : PyStr) :
    Except PyError (User × DB) :=
  if email = [] then
    .error .valueError
  else
    let u : User :=
      { id := db.nextUserId, email := normalizeEmail email,
        passwordHash := hashPassword password, name := nm,
        isActive := true, isStaff := false, isSuperuser := false }
    .ok (u, { db with users := db.users ++ [u],
                      nextUserId := db.nextUserId + 1 })

/-- POST /user/create.  The password minimum length of five characters
is declared in UserSerializer (src/app/user/serializers.py); the
surrounding view and the unique-email constraint are modelled from the
spec.  Returns the HTTP status code and the resulting store, which is
left unchanged on a validation failure. -/
def createUserEndpoint (db : DB) (email password nm : PyStr) : Nat × DB :=
  if password.length < 5 then (400, db)
  else if email = [] then (400, db)
  else if db.users.any (fun u => u.email == normalizeEmail email) then (400, db)
  else
    match create_user db email password nm with
    | .ok (_, db2) => (201, db2)
    | .error _ => (400, db)

/-- Modelled from the spec: authenticate(email, password) returns the
user on a hash match when the account is active, otherwise signals
failure. -/
def authenticate (db : DB) (email password : PyStr) : Option User :=
  match db.users.find? (fun u => u.email == email) with
  | none => none
  | some u =>
    if checkPassword password u.passwordHash && u.isActive then some u
    else none

/-- Modelled from the spec: issue_token returns an uninterpreted bearer
token for the user. -/
def tokenFor (u : User) : PyStr := 't' :: 'o' :: 'k' :: u.email

/-- Strip leading and trailing whitespace, as Python str.strip does. -/
def pyStrip (s : PyStr) : PyStr :=
  ((s.dropWhile Char.isWhitespace).reverse.dropWhile Char.isWhitespace).reverse

/-- Validation of a framework CharField: a blank value is rejected
unless allowBlank, and the value is stripped exactly when
trimWhitespace is set.  AuthTokenSerializer
(src/app/user/serializers.py) instantiates the password field with
trim_whitespace set to False and allow_blank left at its default of
False. -/
def runCharField (trimWhitespace allowBlank : Bool) (s : PyStr) :
    Except PyError PyStr :=
  if s = [] ∨ (trimWhitespace = true ∧ pyStrip s = []) then
    if allowBlank then .ok [] else .error .validationError
  else
    .ok (if trimWhitespace then pyStrip s else s)

/-- AuthTokenSerializer.validate from src/app/user/serializers.py:
field validation of the password, then authenticate with the email and
password; a failed authentication raises ValidationError. -/
def authTokenValidate (db : DB) (email password : PyStr) :
    Except PyError User :=
  match runCharField false false password with
  | .error e => .error e
  | .ok pw =>
    match authenticate db email pw with
    | some u => .ok u
    | none => .error .validationError

/-- POST /user/token: 200 with a token in the body on success, 400 with
no token otherwise. -/
def tokenEndpoint (db : DB) (email password : PyStr) : Nat × Option PyStr :=
  match authTokenValidate db email password with
  | .ok u => (200, some (tokenFor u))
  | .error _ => (400, none)

def findTag (db : DB) (userId : Nat) (nm : PyStr) : Option Tag :=
  db.tags.find? (fun t => t.user == userId && t.name == nm)

/-- Modelled from the spec: get-or-create for tags, keyed on the
(user, name) composite uniqueness constraint, used by the recipe
serializer (src/app/recipe/serializers.py is not under src/). -/
def getOrCreateTag (db : DB) (userId : Nat) (nm : PyStr) : Tag × DB :=
  match findTag db userId nm with
  | some t => (t, db)
  | none =>
    let t : Tag := { id := db.nextTagId, user := userId, name := nm }
    (t, { db with tags := db.tags ++ [t], nextTagId := db.nextTagId + 1 })

def findIngredient (db : DB) (userId : Nat) (nm : PyStr) : Option Ingredient :=
  db.ingredients.find? (fun i => i.user == userId && i.name == nm)

/-- Modelled from the spec: get-or-create for ingredients, identical to
the tag variant. -/
def getOrCreateIngredient (db : DB) (userId : Nat) (nm : PyStr) :
    Ingredient × DB :=
  match findIngredient db userId nm with
  | some i => (i, db)
  | none =>
    let i : Ingredient :=
      { id := db.nextIngredientId, user := userId, name := nm }
    (i, { db with ingredients := db.ingredients ++ [i],
                  nextIngredientId := db.nextIngredientId + 1 })

/-- Modelled from the spec: resolve each payload name in order to an
existing or newly created tag record of the acting user, returning the
resolved primary keys in payload order together with the store after
all creations. -/
def resolveTags (db : DB) (userId : Nat) : List PyStr → List Nat × DB
  | [] => ([], db)
  | nm :: ns =>
    let p := getOrCreateTag db userId nm
    let q := resolveTags p.2 userId ns
    (p.1.id :: q.1, q.2)

/-- Modelled from the spec: the ingredient counterpart of resolveTags. -/
def resolveIngredients (db : DB) (userId : Nat) : List PyStr → List Nat × DB
  | [] => ([], db)
  | nm :: ns =>
    let p := getOrCreateIngredient db userId nm
    let q := resolveIngredients p.2 userId ns
    (p.1.id :: q.1, q.2)

/-- Many-to-many add: adding an already associated id is a no-op, so
duplicates collapse and the association behaves as a set. -/
def assocAdd (xs : List Nat) (x : Nat) : List Nat :=
  if x ∈ xs then xs else xs ++ [x]

/-- Modelled from the spec: when the tags key is present in a recipe
write, clear the recipe's tag associations and add each resolved
record in turn; omitting the key leaves the associations untouched. -/
def updateRecipeTags (db : DB) (userId recipeId : Nat)
    (payload : Option (List PyStr)) : DB :=
  match payload with
  | none => db
  | some names =>
    let q := resolveTags db userId names
    { q.2 with
      recipes := q.2.recipes.map (fun r =>
        if r.id == recipeId then { r with tags := q.1.foldl assocAdd [] }
        else r) }

/-- Modelled from the spec: the ingredient counterpart of
updateRecipeTags. -/
def updateRecipeIngredients (db : DB) (userId recipeId : Nat)
    (payload : Option (List PyStr)) : DB :=
  match payload with
  | none => db
  | some names =>
    let q := resolveIngredients db userId names
    { q.2 with
      recipes := q.2.recipes.map (fun r =>
        if r.id == recipeId then
          { r with ingredients := q.1.foldl assocAdd [] }
        else r) }

/-- Body of a recipe write.  It mirrors the serializer fields: scalar
fields plus optional nested name lists; there is no user field, the
owner always comes from the authentication context. -/
structure RecipePayload where
  title : PyStr
  timeMinutes : Nat
  price : Int
  description : PyStr
  link : PyStr
  tags : Option (List PyStr)
  ingredients : Option (List PyStr)
deriving DecidableEq

/-- Modelled from the spec: POST /recipe/recipes.  A fresh recipe owned
by the authenticated user is persisted with empty associations, then
the nested tag and ingredient lists, when present, are reconciled.
Returns the new primary key and the resulting store. -/
def createRecipe (db : DB) (authUser : Nat) (p : RecipePayload) : Nat × DB :=
  let rid := db.nextRecipeId
  let r : Recipe :=
    { id := rid, user := authUser, title := p.title,
      timeMinutes := p.timeMinutes, price := p.price,
      description := p.description, link := p.link,
      tags := [], ingredients := [] }
  let db1 : DB := { db with recipes := db.recipes ++ [r],
                            nextRecipeId := rid + 1 }
  let db2 := updateRecipeTags db1 authUser rid p.tags
  let db3 := updateRecipeIngredients db2 authUser rid p.ingredients
  (rid, db3)

/-- Modelled from the spec: the association part of PATCH on a recipe,
reconciling the tags and ingredients keys when present. -/
def patchRecipeAssoc (db : DB) (authUser recipeId : Nat)
    (tagsPayload ingredientsPayload : Option (List PyStr)) : DB :=
  updateRecipeIngredients
    (updateRecipeTags db authUser recipeId tagsPayload)
    authUser recipeId ingredientsPayload

/-- Modelled from the spec: every list operation is implicitly filtered
to records whose user field equals the requesting user. -/
def listRecipes (db : DB) (u : Nat) : List Recipe :=
  db.recipes.filter (fun r => r.user == u)

/-- Modelled from the spec: detail reads fetch by primary key inside the
user-scoped queryset; none models the 404 response. -/
def getRecipeDetail (db : DB) (u rid : Nat) : Option Recipe :=
  (db.recipes.filter (fun r => r.user == u)).find? (fun r => r.id == rid)

def listTags (db : DB) (u : Nat) : List Tag :=
  db.tags.filter (fun t => t.user == u)

def getTagDetail (db : DB) (u tid : Nat) : Option Tag :=
  (db.tags.filter (fun t => t.user == u)).find? (fun t => t.id == tid)

def listIngredients (db : DB) (u : Nat) : List Ingredient :=
  db.ingredients.filter (fun i => i.user == u)

def getIngredientDetail (db : DB) (u iid : Nat) : Option Ingredient :=
  (db.ingredients.filter (fun i => i.user == u)).find? (fun i => i.id == iid)

/-- Modelled from the spec: the assigned-only queryset joins each of
the user's tags with the recipes referencing it, producing one row per
association exactly as the relational join does. -/
def assignedTagRows (db : DB) (u : Nat) : List Tag :=
  (db.tags.filter (fun t => t.user == u)).flatMap (fun t =>
    (db.recipes.filter (fun r => decide (t.id ∈ r.tags))).map (fun _ => t))

/-- Modelled from the spec: listing tags with assigned_only applies
distinct to the joined rows, deduplicating the result. -/
def listTagsAssigned (db : DB) (u : Nat) : List Tag :=
  (assignedTagRows db u).dedup

/-- Modelled from the spec: the ingredient counterpart of
assignedTagRows. -/
def assignedIngredientRows (db : DB) (u : Nat) : List Ingredient :=
  (db.ingredients.filter (fun i => i.user == u)).flatMap (fun i =>
    (db.recipes.filter (fun r => decide (i.id ∈ r.ingredients))).map
      (fun _ => i))

/-- Modelled from the spec: the ingredient counterpart of
listTagsAssigned. -/
def listIngredientsAssigned (db : DB) (u : Nat) : List Ingredient :=
  (assignedIngredientRows db u).dedup

/-- Number of tag records of the given user with the given name. -/
def countTag (db : DB) (u : Nat) (nm : PyStr) : Nat :=
  (db.tags.filter (fun t => t.user == u && t.name == nm)).length

/-- Number of ingredient records of the given user with the given name. -/
def countIngredient (db : DB) (u : Nat) (nm : PyStr) : Nat :=
  (db.ingredients.filter (fun i => i.user == u && i.name == nm)).length

/-- Store wellformedness: primary keys are unique and below the
auto-increment counters, and tags and ingredients satisfy the
(user, name) uniqueness constraint. -/
def DB.wf (db : DB) : Prop :=
  ((db.recipes.map Recipe.id).Nodup ∧
    ∀ r ∈ db.recipes, r.id < db.nextRecipeId) ∧
  ((db.tags.map Tag.id).Nodup ∧ ∀ t ∈ db.tags, t.id < db.nextTagId) ∧
  ((db.ingredients.map Ingredient.id).Nodup ∧
    ∀ i ∈ db.ingredients, i.id < db.nextIngredientId) ∧
  ((db.users.map User.id).Nodup ∧ ∀ u ∈ db.users, u.id < db.nextUserId) ∧
  (∀ t1 ∈ db.tags, ∀ t2 ∈ db.tags,
    t1.user = t2.user → t1.name = t2.name → t1 = t2) ∧
  (∀ i1 ∈ db.ingredients, ∀ i2 ∈ db.ingredients,
    i1.user = i2.user → i1.name = i2.name → i1 = i2)

instance (db : DB) : Decidable db.wf := by
  unfold DB.wf
  infer_instance

/-- The empty store. -/
def emptyDB : DB :=
  { users := [], tags := [], ingredients := [], recipes := [],
    nextUserId := 1, nextTagId := 1, nextIngredientId := 1,
    nextRecipeId := 1 }

/-- Sample account used to exercise the token endpoint. -/
def userTok : User :=
  { id := 1, email := "test@example.com".data,
    passwordHash := hashPassword ("testpass123".data),
    name := "Silly Sally".data, isActive := true,
    isStaff := false, isSuperuser := false }

/-- Store holding only userTok. -/
def dbTok : DB := { emptyDB with users := [userTok], nextUserId := 2 }

/-- Sample account whose password ends in a space, to exercise the
verbatim handling of whitespace by the token endpoint. -/
def userTrim : User :=
  { id := 1, email := "trim@example.com".data,
    passwordHash := hashPassword ("testpass123 ".data),
    name := [], isActive := true, isStaff := false, isSuperuser := false }

/-- Store holding only userTrim. -/
def dbTrim : DB := { emptyDB with users := [userTrim], nextUserId := 2 }

/-- Pre-existing tag of user 1, as in the existing-tag creation test. -/
def tagIndian : Tag := { id := 10, user := 1, name := "Indian".data }

/-- Pre-existing ingredient of user 1, as in the existing-ingredient
creation test. -/
def ingBeans : Ingredient := { id := 20, user := 1, name := "Black Beans".data }

/-- Store holding the Indian tag and the Black Beans ingredient of
user 1. -/
def dbPongal : DB :=
  { emptyDB with tags := [tagIndian], nextTagId := 11,
                 ingredients := [ingBeans], nextIngredientId := 21 }

/-- Recipe payload naming one existing and one new tag, and one
existing and one new ingredient. -/
def payloadPongal : RecipePayload :=
  { title := "Pongal".data, timeMinutes := 60, price := 450,
    description := [], link := [],
    tags := some ["Indian".data, "Breakfast".data],
    ingredients := some ["Black Beans".data, "Paprika".data] }

/-- Recipe of user 1 associated with tag 10. -/
def recBreakfast : Recipe :=
  { id := 1, user := 1, title := "sample title".data, timeMinutes := 22,
    price := 525, description := "Description".data, link := [],
    tags := [10], ingredients := [] }

/-- Store for the tag reassignment scenario: a Breakfast and a Lunch tag
of user 1, and a recipe currently associated with Breakfast. -/
def dbPatch : DB :=
  { users := [], ingredients := [], recipes := [recBreakfast],
    tags := [{ id := 10, user := 1, name := "Breakfast".data },
             { id := 11, user := 1, name := "Lunch".data }],
    nextUserId := 2, nextTagId := 12, nextIngredientId := 1,
    nextRecipeId := 2 }

/-- Minimal recipe payload with no nested lists. -/
def payloadSample : RecipePayload :=
  { title := "sample recipe".data, timeMinutes := 30, price := 599,
    description := [], link := [], tags := none, ingredients := none }

/-- Recipe owned by user 2, used for the isolation scenario. -/
def recOther : Recipe :=
  { id := 2, user := 2, title := "other".data, timeMinutes := 5,
    price := 100, description := [], link := [], tags := [],
    ingredients := [] }

/-- Recipe owned by user 1, used for the isolation scenario. -/
def recMine : Recipe :=
  { id := 1, user := 1, title := "mine".data, timeMinutes := 1,
    price := 1, description := [], link := [], tags := [],
    ingredients := [] }

/-- Store with records of two distinct users, one of each kind each. -/
def dbIso : DB :=
  { users := [],
    tags := [{ id := 1, user := 1, name := "Comfort Food".data },
             { id := 2, user := 2, name := "Fruity".data }],
    ingredients := [{ id := 1, user := 1, name := "Tahini".data },
                    { id := 2, user := 2, name := "Strawberry".data }],
    recipes := [recMine, recOther],
    nextUserId := 3, nextTagId := 3, nextIngredientId := 3,
    nextRecipeId := 3 }

theorem splitLastAtSign_eq_none (d : PyStr) (h : '@' ∉ d) :
    splitLastAtSign d = none := by
  induction d with
  | nil => rfl
  | cons c cs ih =>
    simp only [List.mem_cons, not_or] at h
    have hc : ¬c = '@' := fun hc => h.1 hc.symm
    simp [splitLastAtSign, ih h.2, hc]

theorem splitLastAtSign_append (l d : PyStr) (h : '@' ∉ d) :
    splitLastAtSign (l ++ '@' :: d) = some (l, d) := by
  induction l with
  | nil => simp [splitLastAtSign, splitLastAtSign_eq_none d h]
  | cons c cs ih => simp [splitLastAtSign, ih]

theorem normalizeEmail_localDomain (l d : PyStr) (h : '@' ∉ d) :
    normalizeEmail (l ++ '@' :: d) = l ++ '@' :: lowerStr d := by
  simp [normalizeEmail, splitLastAtSign_append l d h]

/-- C4 counterexample: calling create_user with an empty email and the
password of the repository's test fails with ValueError, not with
ValidationError as the claim states. -/
theorem claim4_empty_email_counterexample :
    create_user emptyDB [] ("wongy".data) [] =
      Except.error PyError.valueError ∧
    create_user emptyDB [] ("wongy".data) [] ≠
      Except.error PyError.validationError := by
  refine ⟨rfl, ?_⟩
  intro h
  simp [create_user] at h

/-- C4 amended: calling create_user with an empty email string, for any
password, fails with ValueError and returns no user record. -/
theorem claim4_empty_email_value_error (db : DB) (password nm : PyStr) :
    create_user db [] password nm = Except.error PyError.valueError := rfl

/-- C5: for every email of the form local at domain, with no at-sign in
the domain, create_user succeeds and stores the email with the local
part preserved character for character and the domain part
lowercased. -/
theorem claim5_email_normalised (db : DB) (password nm lcl dom : PyStr)
    (h : '@' ∉ dom) :
    ∃ u db2,
      create_user db (lcl ++ '@' :: dom) password nm =
        Except.ok (u, db2) ∧
      u.email = lcl ++ '@' :: lowerStr dom := by
  have hne : lcl ++ '@' :: dom ≠ [] := by cases lcl <;> simp
  rw [create_user, if_neg hne]
  exact ⟨_, _, rfl, by simp [normalizeEmail_localDomain lcl dom h]⟩

theorem claim5_email_normalised_witness :
    ∃ u db2,
      create_user emptyDB ("Test2".data ++ '@' :: "Example.com".data)
          ("wongy".data) [] =
        Except.ok (u, db2) ∧
      u.email = "Test2".data ++ '@' :: lowerStr ("Example.com".data) :=
  claim5_email_normalised emptyDB ("wongy".data) [] ("Test2".data)
    ("Example.com".data) (by decide)

/-- C6: every registration whose password is shorter than five
characters receives status 400 and leaves the store unchanged, so no
user record with that email is persisted. -/
theorem claim6_short_password (db : DB) (email password nm : PyStr)
    (h : password.length < 5) :
    createUserEndpoint db email password nm = (400, db) := by
  rw [createUserEndpoint, if_pos h]

theorem claim6_short_password_witness :
    createUserEndpoint emptyDB ("test@example.com".data) ("test".data)
      ("Silly Sally".data) = (400, emptyDB) :=
  claim6_short_password emptyDB ("test@example.com".data) ("test".data)
    ("Silly Sally".data) (by decide)

/-- C7: the token endpoint answers 200 with a token when the supplied
email and non-blank password authenticate an active user, 400 with no
token when the credentials match no user, and 400 with no token when
the password is blank. -/
theorem claim7_token_endpoint (db : DB) (email password : PyStr) :
    (∀ u, password ≠ [] → authenticate db email password = some u →
      tokenEndpoint db email password = (200, some (tokenFor u))) ∧
    (authenticate db email password = none →
      tokenEndpoint db email password = (400, none)) ∧
    tokenEndpoint db email [] = (400, none) := by
  refine ⟨?_, ?_, ?_⟩
  · intro u hne hau
    simp [tokenEndpoint, authTokenValidate, runCharField, hne, hau]
  · intro hau
    by_cases hp : password = []
    · subst hp
      simp [tokenEndpoint, authTokenValidate, runCharField]
    · simp [tokenEndpoint, authTokenValidate, runCharField, hp, hau]
  · simp [tokenEndpoint, authTokenValidate, runCharField]

theorem claim7_token_endpoint_witness :
    tokenEndpoint dbTok ("test@example.com".data) ("testpass123".data) =
      (200, some (tokenFor userTok)) ∧
    tokenEndpoint dbTok ("test@example.com".data) ("badpass".data) =
      (400, none) ∧
    tokenEndpoint dbTok ("test@example.com".data) [] = (400, none) :=
  ⟨(claim7_token_endpoint dbTok ("test@example.com".data)
      ("testpass123".data)).1 userTok (by decide) (by decide),
   (claim7_token_endpoint dbTok ("test@example.com".data)
      ("badpass".data)).2.1 (by decide),
   (claim7_token_endpoint dbTok ("test@example.com".data) []).2.2⟩

/-- C10: the token endpoint's password field does not trim whitespace,
so any non-blank password reaches authentication verbatim; with a
stored password ending in a space, supplying the trailing space
succeeds while the stripped variant is rejected as distinct
credentials. -/
theorem claim10_password_not_trimmed :
    (∀ s : PyStr, s ≠ [] → runCharField false false s = Except.ok s) ∧
    pyStrip ("testpass123 ".data) = "testpass123".data ∧
    tokenEndpoint dbTrim ("trim@example.com".data) ("testpass123 ".data) =
      (200, some (tokenFor userTrim)) ∧
    tokenEndpoint dbTrim ("trim@example.com".data) ("testpass123".data) =
      (400, none) := by
  refine ⟨?_, by decide, by decide, by decide⟩
  intro s hs
  simp [runCharField, hs]

theorem claim10_password_not_trimmed_witness :
    runCharField false false ("testpass123 ".data) =
      Except.ok ("testpass123 ".data) :=
  claim10_password_not_trimmed.1 ("testpass123 ".data) (by decide)

theorem mem_assocAdd (xs : List Nat) (y x : Nat) :
    x ∈ assocAdd xs y ↔ x ∈ xs ∨ x = y := by
  unfold assocAdd
  by_cases h : y ∈ xs
  · simp only [if_pos h]
    exact ⟨Or.inl, fun hx => hx.elim id (fun e => e ▸ h)⟩
  · simp [if_neg h, List.mem_append]

theorem mem_foldl_assocAdd (l : List Nat) :
    ∀ acc x, x ∈ l.foldl assocAdd acc ↔ x ∈ acc ∨ x ∈ l := by
  induction l with
  | nil => simp
  | cons a as ih =>
    intro acc x
    rw [List.foldl_cons, ih, mem_assocAdd]
    simp [List.mem_cons, or_assoc]

theorem getOrCreateTag_recipes (db : DB) (u : Nat) (nm : PyStr) :
    ((getOrCreateTag db u nm).2).recipes = db.recipes := by
  unfold getOrCreateTag
  cases hf : findTag db u nm <;> simp

theorem getOrCreateIngredient_recipes (db : DB) (u : Nat) (nm : PyStr) :
    ((getOrCreateIngredient db u nm).2).recipes = db.recipes := by
  unfold getOrCreateIngredient
  cases hf : findIngredient db u nm <;> simp

theorem resolveTags_recipes (u : Nat) (ns : List PyStr) :
    ∀ db : DB, ((resolveTags db u ns).2).recipes = db.recipes := by
  induction ns with
  | nil => intro db; rfl
  | cons nm ns ih =>
    intro db
    rw [resolveTags]
    simp only []
    rw [ih, getOrCreateTag_recipes]

theorem resolveIngredients_recipes (u : Nat) (ns : List PyStr) :
    ∀ db : DB, ((resolveIngredients db u ns).2).recipes = db.recipes := by
  induction ns with
  | nil => intro db; rfl
  | cons nm ns ih =>
    intro db
    rw [resolveIngredients]
    simp only []
    rw [ih, getOrCreateIngredient_recipes]

/-- C3: a recipe update with the tags or ingredients key replaces the
recipe's association set by exactly the resolved set of the supplied
names, an empty list clears all associations of that relation, and
omitting the key leaves the store untouched. -/
theorem claim3_full_replace (db : DB) (u rid : Nat) :
    updateRecipeTags db u rid none = db ∧
    updateRecipeIngredients db u rid none = db ∧
    (∀ names r', r' ∈ (updateRecipeTags db u rid (some names)).recipes →
      r'.id = rid → ∀ x, x ∈ r'.tags ↔ x ∈ (resolveTags db u names).1) ∧
    (∀ r', r' ∈ (updateRecipeTags db u rid (some [])).recipes →
      r'.id = rid → r'.tags = []) ∧
    (∀ names r',
      r' ∈ (updateRecipeIngredients db u rid (some names)).recipes →
      r'.id = rid →
      ∀ x, x ∈ r'.ingredients ↔ x ∈ (resolveIngredients db u names).1) ∧
    (∀ r', r' ∈ (updateRecipeIngredients db u rid (some [])).recipes →
      r'.id = rid → r'.ingredients = []) := by
  have htags : ∀ names r',
      r' ∈ (updateRecipeTags db u rid (some names)).recipes →
      r'.id = rid → ∀ x, x ∈ r'.tags ↔ x ∈ (resolveTags db u names).1 := by
    intro names r' hmem hid x
    simp only [updateRecipeTags, List.mem_map] at hmem
    obtain ⟨r0, _, hr0⟩ := hmem
    by_cases h0 : r0.id = rid
    · rw [if_pos (by simpa using h0)] at hr0
      subst hr0
      simp [mem_foldl_assocAdd]
    · rw [if_neg (by simpa using h0)] at hr0
      subst hr0
      exact absurd hid h0
  have hings : ∀ names r',
      r' ∈ (updateRecipeIngredients db u rid (some names)).recipes →
      r'.id = rid →
      ∀ x, x ∈ r'.ingredients ↔ x ∈ (resolveIngredients db u names).1 := by
    intro names r' hmem hid x
    simp only [updateRecipeIngredients, List.mem_map] at hmem
    obtain ⟨r0, _, hr0⟩ := hmem
    by_cases h0 : r0.id = rid
    · rw [if_pos (by simpa using h0)] at hr0
      subst hr0
      simp [mem_foldl_assocAdd]
    · rw [if_neg (by simpa using h0)] at hr0
      subst hr0
      exact absurd hid h0
  refine ⟨rfl, rfl, htags, ?_, hings, ?_⟩
  · intro r' hmem hid
    have := htags [] r' hmem hid
    simp only [resolveTags] at this
    exact List.eq_nil_iff_forall_not_mem.mpr (fun x hx =>
      by simpa using (this x).mp hx)
  · intro r' hmem hid
    have := hings [] r' hmem hid
    simp only [resolveIngredients] at this
    exact List.eq_nil_iff_forall_not_mem.mpr (fun x hx =>
      by simpa using (this x).mp hx)

theorem claim3_full_replace_witness :
    updateRecipeTags dbPatch 1 1 none = dbPatch ∧
    (11 ∈ ({ recBreakfast with tags := [11] } : Recipe).tags ↔
      11 ∈ (resolveTags dbPatch 1 ["Lunch".data]).1) ∧
    ({ recBreakfast with tags := ([] : List Nat) } : Recipe).tags = [] :=
  ⟨(claim3_full_replace dbPatch 1 1).1,
   (claim3_full_replace dbPatch 1 1).2.2.1 ["Lunch".data]
     { recBreakfast with tags := [11] } (by decide) (by decide) 11,
   (claim3_full_replace dbPatch 1 1).2.2.2.1
     { recBreakfast with tags := ([] : List Nat) } (by decide) (by decide)⟩

theorem countTag_getOrCreateTag (db : DB) (u' u : Nat) (nm' nm : PyStr) :
    countTag ((getOrCreateTag db u' nm').2) u nm =
      if u' = u ∧ nm' = nm then max 1 (countTag db u nm)
      else countTag db u nm := by
  unfold getOrCreateTag
  cases hf : findTag db u' nm' with
  | some t =>
    simp only []
    by_cases hk : u' = u ∧ nm' = nm
    · obtain ⟨hu, hnm⟩ := hk
      subst hu; subst hnm
      have htm : t ∈ db.tags := List.mem_of_find?_eq_some hf
      have ht := List.find?_some hf
      have hmem : t ∈ db.tags.filter (fun x => x.user == u' && x.name == nm') :=
        List.mem_filter.mpr ⟨htm, ht⟩
      have hpos : 0 < countTag db u' nm' := by
        unfold countTag
        exact List.length_pos.mpr (List.ne_nil_of_mem hmem)
      simp [Nat.max_eq_right hpos]
    · simp [hk]
  | none =>
    simp only []
    have hall := List.find?_eq_none.mp hf
    by_cases hk : u' = u ∧ nm' = nm
    · obtain ⟨hu, hnm⟩ := hk
      subst hu; subst hnm
      have h0 : countTag db u' nm' = 0 := by
        unfold countTag
        rw [List.filter_eq_nil_iff.mpr hall]
        rfl
      simp only [countTag, List.filter_append] at h0 ⊢
      rw [List.filter_eq_nil_iff.mpr hall]
      simp [h0, countTag]
    · have hpf : ((u' == u) && (nm' == nm)) = false := by
        rw [Bool.eq_false_iff]
        intro hT
        rw [Bool.and_eq_true, beq_iff_eq, beq_iff_eq] at hT
        exact hk hT
      simp [countTag, List.filter_append, hpf, hk]

theorem countIngredient_getOrCreateIngredient (db : DB) (u' u : Nat)
    (nm' nm : PyStr) :
    countIngredient ((getOrCreateIngredient db u' nm').2) u nm =
      if u' = u ∧ nm' = nm then max 1 (countIngredient db u nm)
      else countIngredient db u nm := by
  unfold getOrCreateIngredient
  cases hf : findIngredient db u' nm' with
  | some i =>
    simp only []
    by_cases hk : u' = u ∧ nm' = nm
    · obtain ⟨hu, hnm⟩ := hk
      subst hu; subst hnm
      have him : i ∈ db.ingredients := List.mem_of_find?_eq_some hf
      have hi := List.find?_some hf
      have hmem : i ∈ db.ingredients.filter
          (fun x => x.user == u' && x.name == nm') :=
        List.mem_filter.mpr ⟨him, hi⟩
      have hpos : 0 < countIngredient db u' nm' := by
        unfold countIngredient
        exact List.length_pos.mpr (List.ne_nil_of_mem hmem)
      simp [Nat.max_eq_right hpos]
    · simp [hk]
  | none =>
    simp only []
    have hall := List.find?_eq_none.mp hf
    by_cases hk : u' = u ∧ nm' = nm
    · obtain ⟨hu, hnm⟩ := hk
      subst hu; subst hnm
      have h0 : countIngredient db u' nm' = 0 := by
        unfold countIngredient
        rw [List.filter_eq_nil_iff.mpr hall]
        rfl
      simp only [countIngredient, List.filter_append] at h0 ⊢
      rw [List.filter_eq_nil_iff.mpr hall]
      simp [h0, countIngredient]
    · have hpf : ((u' == u) && (nm' == nm)) = false := by
        rw [Bool.eq_false_iff]
        intro hT
        rw [Bool.and_eq_true, beq_iff_eq, beq_iff_eq] at hT
        exact hk hT
      simp [countIngredient, List.filter_append, hpf, hk]

theorem countTag_resolveTags (u' u : Nat) (nm : PyStr) (ns : List PyStr) :
    ∀ db : DB,
      countTag ((resolveTags db u' ns).2) u nm =
        if u' = u ∧ nm ∈ ns then max 1 (countTag db u nm)
        else countTag db u nm := by
  induction ns with
  | nil => intro db; simp [resolveTags]
  | cons nm' ns ih =>
    intro db
    rw [resolveTags]
    simp only []
    rw [ih, countTag_getOrCreateTag]
    by_cases hu : u' = u
    · subst hu
      by_cases h1 : nm ∈ ns
      · by_cases h2 : nm' = nm <;>
          simp [h1, h2, List.mem_cons, ← Nat.max_assoc]
      · by_cases h2 : nm' = nm
        · simp [h1, h2, List.mem_cons]
        · have hne : ¬nm = nm' := fun e => h2 e.symm
          simp [h1, h2, List.mem_cons, hne]
    · simp [hu]

theorem countIngredient_resolveIngredients (u' u : Nat) (nm : PyStr)
    (ns : List PyStr) :
    ∀ db : DB,
      countIngredient ((resolveIngredients db u' ns).2) u nm =
        if u' = u ∧ nm ∈ ns then max 1 (countIngredient db u nm)
        else countIngredient db u nm := by
  induction ns with
  | nil => intro db; simp [resolveIngredients]
  | cons nm' ns ih =>
    intro db
    rw [resolveIngredients]
    simp only []
    rw [ih, countIngredient_getOrCreateIngredient]
    by_cases hu : u' = u
    · subst hu
      by_cases h1 : nm ∈ ns
      · by_cases h2 : nm' = nm <;>
          simp [h1, h2, List.mem_cons, ← Nat.max_assoc]
      · by_cases h2 : nm' = nm
        · simp [h1, h2, List.mem_cons]
        · have hne : ¬nm = nm' := fun e => h2 e.symm
          simp [h1, h2, List.mem_cons, hne]
    · simp [hu]

/-- C2: in every recipe write with a nested name list each name is
resolved by get-or-create keyed on (user, name): an existing record is
returned with the store unchanged, an absent name creates exactly one
record for that user and name; at the level of a whole payload the
number of records per name becomes one whether or not it existed, and
never exceeds the previous count; the Pongal example ends with one
Indian record reused, one Breakfast record created and a recipe
associated with exactly two tags. -/
theorem claim2_get_or_create_reconciliation (db : DB) (u : Nat) (nm : PyStr) :
    (∀ t, findTag db u nm = some t → getOrCreateTag db u nm = (t, db)) ∧
    (findTag db u nm = none →
      (getOrCreateTag db u nm).1.user = u ∧
      (getOrCreateTag db u nm).1.name = nm ∧
      (getOrCreateTag db u nm).2.tags =
        db.tags ++ [(getOrCreateTag db u nm).1] ∧
      countTag ((getOrCreateTag db u nm).2) u nm = 1 ∧
      countTag db u nm = 0) ∧
    (∀ i, findIngredient db u nm = some i →
      getOrCreateIngredient db u nm = (i, db)) ∧
    (findIngredient db u nm = none →
      (getOrCreateIngredient db u nm).1.user = u ∧
      (getOrCreateIngredient db u nm).1.name = nm ∧
      (getOrCreateIngredient db u nm).2.ingredients =
        db.ingredients ++ [(getOrCreateIngredient db u nm).1] ∧
      countIngredient ((getOrCreateIngredient db u nm).2) u nm = 1 ∧
      countIngredient db u nm = 0) ∧
    (∀ rid ns, countTag (updateRecipeTags db u rid (some ns)) u nm =
      if nm ∈ ns then max 1 (countTag db u nm) else countTag db u nm) ∧
    (∀ rid ns,
      countIngredient (updateRecipeIngredients db u rid (some ns)) u nm =
        if nm ∈ ns then max 1 (countIngredient db u nm)
        else countIngredient db u nm) ∧
    (countTag (createRecipe dbPongal 1 payloadPongal).2 1
        ("Indian".data) = 1 ∧
     countTag (createRecipe dbPongal 1 payloadPongal).2 1
        ("Breakfast".data) = 1 ∧
     countIngredient (createRecipe dbPongal 1 payloadPongal).2 1
        ("Black Beans".data) = 1 ∧
     countIngredient (createRecipe dbPongal 1 payloadPongal).2 1
        ("Paprika".data) = 1 ∧
     (getRecipeDetail (createRecipe dbPongal 1 payloadPongal).2 1
        (createRecipe dbPongal 1 payloadPongal).1).map
       (fun r => (r.tags.length, r.tags.contains tagIndian.id,
                  r.ingredients.length,
                  r.ingredients.contains ingBeans.id)) =
       some (2, true, 2, true)) := by
  refine ⟨?_, ?_, ?_, ?_, ?_, ?_, by decide⟩
  · intro t h
    simp [getOrCreateTag, h]
  · intro h
    have hall := List.find?_eq_none.mp h
    have h0 : countTag db u nm = 0 := by
      unfold countTag
      rw [List.filter_eq_nil_iff.mpr hall]
      rfl
    have h1 := countTag_getOrCreateTag db u u nm nm
    simp [h0] at h1
    exact ⟨by simp [getOrCreateTag, h], by simp [getOrCreateTag, h],
           by simp [getOrCreateTag, h], h1, h0⟩
  · intro i h
    simp [getOrCreateIngredient, h]
  · intro h
    have hall := List.find?_eq_none.mp h
    have h0 : countIngredient db u nm = 0 := by
      unfold countIngredient
      rw [List.filter_eq_nil_iff.mpr hall]
      rfl
    have h1 := countIngredient_getOrCreateIngredient db u u nm nm
    simp [h0] at h1
    exact ⟨by simp [getOrCreateIngredient, h],
           by simp [getOrCreateIngredient, h],
           by simp [getOrCreateIngredient, h], h1, h0⟩
  · intro rid ns
    have h := countTag_resolveTags u u nm ns db
    simp only [eq_self_iff_true, true_and] at h
    exact h
  · intro rid ns
    have h := countIngredient_resolveIngredients u u nm ns db
    simp only [eq_self_iff_true, true_and] at h
    exact h

theorem claim2_get_or_create_reconciliation_witness :
    getOrCreateTag dbPongal 1 ("Indian".data) = (tagIndian, dbPongal) ∧
    countTag (getOrCreateTag emptyDB 1 ("Breakfast".data)).2 1
      ("Breakfast".data) = 1 :=
  ⟨(claim2_get_or_create_reconciliation dbPongal 1 ("Indian".data)).1
      tagIndian (by decide),
   ((claim2_get_or_create_reconciliation emptyDB 1
      ("Breakfast".data)).2.1 (by decide)).2.2.2.1⟩

theorem find?_map_user (f : Recipe → Recipe)
    (hid : ∀ r, (f r).id = r.id) (huser : ∀ r, (f r).user = r.user)
    (q : Nat) :
    ∀ l : List Recipe,
      ((l.map f).find? (fun r => r.id == q)).map Recipe.user =
        (l.find? (fun r => r.id == q)).map Recipe.user := by
  intro l
  induction l with
  | nil => rfl
  | cons a as ih =>
    rw [List.map_cons]
    cases hc : (a.id == q) with
    | true =>
      have hfa : ((f a).id == q) = true := by rw [hid]; exact hc
      simp [List.find?, hc, hfa, huser]
    | false =>
      have hfa : ((f a).id == q) = false := by rw [hid]; exact hc
      simp only [List.find?, hc, hfa]
      exact ih

theorem updateRecipeTags_find_user (db : DB) (u rid : Nat)
    (op : Option (List PyStr)) (q : Nat) :
    ((updateRecipeTags db u rid op).recipes.find?
        (fun r => r.id == q)).map Recipe.user =
      (db.recipes.find? (fun r => r.id == q)).map Recipe.user := by
  cases op with
  | none => rfl
  | some names =>
    simp only [updateRecipeTags]
    rw [resolveTags_recipes]
    exact find?_map_user _ (fun r => by cases h : (r.id == rid) <;> simp [h])
      (fun r => by cases h : (r.id == rid) <;> simp [h]) q db.recipes

theorem updateRecipeIngredients_find_user (db : DB) (u rid : Nat)
    (op : Option (List PyStr)) (q : Nat) :
    ((updateRecipeIngredients db u rid op).recipes.find?
        (fun r => r.id == q)).map Recipe.user =
      (db.recipes.find? (fun r => r.id == q)).map Recipe.user := by
  cases op with
  | none => rfl
  | some names =>
    simp only [updateRecipeIngredients]
    rw [resolveIngredients_recipes]
    exact find?_map_user _ (fun r => by cases h : (r.id == rid) <;> simp [h])
      (fun r => by cases h : (r.id == rid) <;> simp [h]) q db.recipes

/-- C9: in a wellformed store every successful recipe creation persists
a recipe whose user field is the authenticated requester; the payload
carries no user field at all, so the owner can only come from the
authentication context. -/
theorem claim9_created_recipe_owner (db : DB) (hwf : db.wf) (u : Nat)
    (p : RecipePayload) :
    ((createRecipe db u p).2.recipes.find?
        (fun r => r.id == (createRecipe db u p).1)).map Recipe.user =
      some u := by
  have hfresh : ∀ r ∈ db.recipes, ¬((r.id == db.nextRecipeId) = true) := by
    intro r hr
    have hlt := hwf.1.2 r hr
    simp [Nat.ne_of_lt hlt]
  simp only [createRecipe]
  rw [updateRecipeIngredients_find_user, updateRecipeTags_find_user]
  rw [List.find?_append, List.find?_eq_none.mpr hfresh, Option.none_or]
  simp

theorem claim9_created_recipe_owner_witness :
    ((createRecipe emptyDB 1 payloadSample).2.recipes.find?
        (fun r => r.id == (createRecipe emptyDB 1 payloadSample).1)).map
      Recipe.user = some 1 :=
  claim9_created_recipe_owner emptyDB (by decide) 1 payloadSample

/-- C1: every list operation returns only records owned by the
requesting user, every detail read returns only a record owned by the
requesting user, and in a wellformed store another user's record never
appears in the list and its id yields none (a 404) on the detail
endpoint. -/
theorem claim1_cross_user_isolation (db : DB) (u : Nat) :
    (∀ r ∈ listRecipes db u, r.user = u) ∧
    (∀ t ∈ listTags db u, t.user = u) ∧
    (∀ i ∈ listIngredients db u, i.user = u) ∧
    (∀ rid r, getRecipeDetail db u rid = some r → r.user = u) ∧
    (∀ tid t, getTagDetail db u tid = some t → t.user = u) ∧
    (∀ iid i, getIngredientDetail db u iid = some i → i.user = u) ∧
    (db.wf → ∀ r ∈ db.recipes, r.user ≠ u →
      r ∉ listRecipes db u ∧ getRecipeDetail db u r.id = none) ∧
    (db.wf → ∀ t ∈ db.tags, t.user ≠ u →
      t ∉ listTags db u ∧ getTagDetail db u t.id = none) ∧
    (db.wf → ∀ i ∈ db.ingredients, i.user ≠ u →
      i ∉ listIngredients db u ∧ getIngredientDetail db u i.id = none) := by
  have hlr : ∀ r ∈ listRecipes db u, r.user = u := by
    intro r hr
    simp only [listRecipes] at hr
    simpa using (List.mem_filter.mp hr).2
  have hlt : ∀ t ∈ listTags db u, t.user = u := by
    intro t ht
    simp only [listTags] at ht
    simpa using (List.mem_filter.mp ht).2
  have hli : ∀ i ∈ listIngredients db u, i.user = u := by
    intro i hi
    simp only [listIngredients] at hi
    simpa using (List.mem_filter.mp hi).2
  refine ⟨hlr, hlt, hli, ?_, ?_, ?_, ?_, ?_, ?_⟩
  · intro rid r h
    simp only [getRecipeDetail] at h
    have hm := List.mem_of_find?_eq_some h
    simpa using (List.mem_filter.mp hm).2
  · intro tid t h
    simp only [getTagDetail] at h
    have hm := List.mem_of_find?_eq_some h
    simpa using (List.mem_filter.mp hm).2
  · intro iid i h
    simp only [getIngredientDetail] at h
    have hm := List.mem_of_find?_eq_some h
    simpa using (List.mem_filter.mp hm).2
  · intro hwf r hr hneq
    refine ⟨fun habs => hneq (hlr r habs), ?_⟩
    simp only [getRecipeDetail]
    apply List.find?_eq_none.mpr
    intro r' hr' habs
    have hmem := List.mem_filter.mp hr'
    have hu' : r'.user = u := by simpa using hmem.2
    have hid : r'.id = r.id := by simpa using habs
    have heq : r' = r :=
      List.inj_on_of_nodup_map hwf.1.1 hmem.1 hr hid
    exact hneq (heq ▸ hu')
  · intro hwf t ht hneq
    refine ⟨fun habs => hneq (hlt t habs), ?_⟩
    simp only [getTagDetail]
    apply List.find?_eq_none.mpr
    intro t' ht' habs
    have hmem := List.mem_filter.mp ht'
    have hu' : t'.user = u := by simpa using hmem.2
    have hid : t'.id = t.id := by simpa using habs
    have heq : t' = t :=
      List.inj_on_of_nodup_map hwf.2.1.1 hmem.1 ht hid
    exact hneq (heq ▸ hu')
  · intro hwf i hi hneq
    refine ⟨fun habs => hneq (hli i habs), ?_⟩
    simp only [getIngredientDetail]
    apply List.find?_eq_none.mpr
    intro i' hi' habs
    have hmem := List.mem_filter.mp hi'
    have hu' : i'.user = u := by simpa using hmem.2
    have hid : i'.id = i.id := by simpa using habs
    have heq : i' = i :=
      List.inj_on_of_nodup_map hwf.2.2.1.1 hmem.1 hi hid
    exact hneq (heq ▸ hu')

theorem claim1_cross_user_isolation_witness :
    recMine.user = 1 ∧
    (recOther ∉ listRecipes dbIso 1 ∧
      getRecipeDetail dbIso 1 recOther.id = none) :=
  ⟨(claim1_cross_user_isolation dbIso 1).1 recMine (by decide),
   (claim1_cross_user_isolation dbIso 1).2.2.2.2.2.2.1 (by decide)
     recOther (by decide) (by decide)⟩

/-- C8: listing with assigned_only returns exactly the user's tags and
ingredients associated with at least one recipe, and the result is
duplicate free, so each record appears at most once even when it is
associated with several recipes. -/
theorem claim8_assigned_only_dedup (db : DB) (u : Nat) :
    (∀ t : Tag, t ∈ listTagsAssigned db u ↔
      (t ∈ db.tags ∧ t.user = u ∧ ∃ r ∈ db.recipes, t.id ∈ r.tags)) ∧
    (listTagsAssigned db u).Nodup ∧
    (∀ t : Tag, (listTagsAssigned db u).count t ≤ 1) ∧
    (∀ i : Ingredient, i ∈ listIngredientsAssigned db u ↔
      (i ∈ db.ingredients ∧ i.user = u ∧
        ∃ r ∈ db.recipes, i.id ∈ r.ingredients)) ∧
    (listIngredientsAssigned db u).Nodup ∧
    (∀ i : Ingredient, (listIngredientsAssigned db u).count i ≤ 1) := by
  refine ⟨?_, List.nodup_dedup _,
    fun t => List.nodup_iff_count_le_one.mp (List.nodup_dedup _) t, ?_,
    List.nodup_dedup _,
    fun i => List.nodup_iff_count_le_one.mp (List.nodup_dedup _) i⟩
  · intro t
    simp only [listTagsAssigned, List.mem_dedup, assignedTagRows,
      List.mem_flatMap, List.mem_filter, List.mem_map, decide_eq_true_eq,
      beq_iff_eq]
    constructor
    · rintro ⟨t0, ⟨hm, hu⟩, _, ⟨⟨hr, hi⟩, rfl⟩⟩
      exact ⟨hm, hu, _, hr, hi⟩
    · rintro ⟨hm, hu, r, hr, hi⟩
      exact ⟨t, ⟨hm, hu⟩, r, ⟨hr, hi⟩, rfl⟩
  · intro i
    simp only [listIngredientsAssigned, List.mem_dedup,
      assignedIngredientRows, List.mem_flatMap, List.mem_filter,
      List.mem_map, decide_eq_true_eq, beq_iff_eq]
    constructor
    · rintro ⟨i0, ⟨hm, hu⟩, _, ⟨⟨hr, hi⟩, rfl⟩⟩
      exact ⟨hm, hu, _, hr, hi⟩
    · rintro ⟨hm, hu, r, hr, hi⟩
      exact ⟨i, ⟨hm, hu⟩, r, ⟨hr, hi⟩, rfl⟩

end RecipeApp
